import Mathlib

/-!
Verification of the socketio tic-tac-toe client/server system.

The repository ships two client variants:
* `app/page.tsx` — create/join-by-id client;
* the unnamed queue client (quick-match variant).

The server-side core (Win Detector, Game Session, Session Registry,
Matchmaking Queue) is described by the specification but its source is not
part of the repository; those components are modelled here from the spec, as
marked on each definition.  Client-side definitions are translated directly
from the two TSX files.
-/

namespace TTT


/-- A player symbol, `X` or `O`. -/
inductive Symbol where
  | X
  | O
deriving DecidableEq, Repr

/-- A board cell: `none` is the empty cell (JS `null`), `some s` holds a
placed symbol.  The board is the JS array of 9 cells. -/
abbrev Board := List (Option Symbol)

/-- Session lifecycle status, shared by the server session and the wire
snapshot: `"waiting" | "playing" | "finished"`. -/
inductive Status where
  | waiting
  | playing
  | finished
deriving DecidableEq, Repr

/-- Modelled from the spec: the 8 fixed winning triples of the Win Detector —
3 rows, 3 columns, 2 diagonals (§4.1). -/
def winLines : List (Nat × Nat × Nat) :=
  [(0, 1, 2), (3, 4, 5), (6, 7, 8),
   (0, 3, 6), (1, 4, 7), (2, 5, 8),
   (0, 4, 8), (2, 4, 6)]

/-- Cell lookup on a board, with the JS out-of-range value `undefined`
collapsed to the empty cell. -/
def cellAt (b : Board) (i : Nat) : Option Symbol :=
  b.getD i none

/-- Modelled from the spec: does a single triple hold three equal non-empty
cells?  Returns the winning symbol when it does. -/
def lineWinner (b : Board) : Nat × Nat × Nat → Option Symbol
  | (i, j, k) =>
    match cellAt b i with
    | none => none
    | some s => if cellAt b j = some s ∧ cellAt b k = some s then some s else none

/-- Modelled from the spec: scan of the fixed triples, returning the first
winning triple together with its symbol. -/
def findWin (b : Board) : List (Nat × Nat × Nat) → Option (Symbol × (Nat × Nat × Nat))
  | [] => none
  | l :: ls =>
    match lineWinner b l with
    | some s => some (s, l)
    | none => findWin b ls

/-- Modelled from the spec: all 9 cells are filled (JS
`board.every(cell => cell !== null)`). -/
def boardFull (b : Board) : Bool :=
  b.all (fun c => c.isSome)

/-- Result of the Win Detector: `ongoing`, `won` with the winner symbol and
the winning triple, or `draw`. -/
inductive GameResult where
  | ongoing
  | won (s : Symbol) (line : Nat × Nat × Nat)
  | draw
deriving DecidableEq, Repr

/-- Modelled from the spec: the Win Detector `evaluate(board)` (§4.1) —
checks the 8 fixed triples for three equal non-empty cells; draw is declared
when all 9 cells are filled and no triple won. -/
def evaluate (b : Board) : GameResult :=
  match findWin b winLines with
  | some (s, l) => .won s l
  | none => if boardFull b then .draw else .ongoing

/-- Spec-side predicate: the triple `l` is one of the 8 fixed triples and its
three cells hold the same non-empty symbol on `b`. -/
def WinningTriple (b : Board) (l : Nat × Nat × Nat) : Prop :=
  l ∈ winLines ∧
    ∃ s, cellAt b l.1 = some s ∧ cellAt b l.2.1 = some s ∧ cellAt b l.2.2 = some s

/-- The full Win Detector contract for one board: trichotomy of results; a
won result names a fixed triple whose three cells hold the winner's symbol;
won is reported exactly when some fixed triple wins; draw exactly when the
board is full with no winning triple; ongoing exactly otherwise. -/
def WinDetectorSpec (b : Board) : Prop :=
  (evaluate b = .ongoing ∨ (∃ s l, evaluate b = .won s l) ∨ evaluate b = .draw) ∧
  (∀ s l, evaluate b = .won s l →
    l ∈ winLines ∧
      cellAt b l.1 = some s ∧ cellAt b l.2.1 = some s ∧ cellAt b l.2.2 = some s) ∧
  ((∃ s l, evaluate b = .won s l) ↔ ∃ l, WinningTriple b l) ∧
  (evaluate b = .draw ↔ (∀ i < 9, (cellAt b i).isSome) ∧ ¬ ∃ l, WinningTriple b l) ∧
  (evaluate b = .ongoing ↔ (∃ i < 9, cellAt b i = none) ∧ ¬ ∃ l, WinningTriple b l)

/-- A joined player of a session: connection id, display name, and the symbol
assigned at join time (first joiner X, second O). -/
structure Player where
  id : String
  name : String
  symbol : Symbol
deriving DecidableEq, Repr

/-- Modelled from the spec: the server Game Session (§3) — id, 9-cell board,
joined players, turn pointer, lifecycle status, winner id. -/
structure GameSession where
  id : String
  board : Board
  players : List Player
  currentTurn : Option String
  status : Status
  winner : Option String
deriving DecidableEq, Repr

/-- Modelled from the spec: a fresh `waiting` session as stored by the
Session Registry's `create()` (§4.3). -/
def freshSession (id : String) : GameSession :=
  { id := id
    board := List.replicate 9 none
    players := []
    currentTurn := none
    status := .waiting
    winner := none }

/-- Error signalled when a join is rejected (§4.2). -/
inductive JoinError where
  | sessionFull
deriving DecidableEq, Repr

/-- Errors signalled when a move is rejected (§4.2). -/
inductive MoveError where
  | gameNotActive
  | notYourTurn
  | invalidPosition
  | cellOccupied
deriving DecidableEq, Repr

/-- Modelled from the spec: `join(player)` (§4.2) — valid only in `waiting`
with fewer than 2 players bound; the first joiner gets symbol X, the second
gets O; once both are bound the session transitions to `playing` with
`currentTurn` set to the X player's id; any other join is rejected with
`SessionFull`. -/
def joinSession (s : GameSession) (pid pname : String) : Except JoinError GameSession :=
  if s.status = Status.waiting then
    match s.players with
    | [] => .ok { s with players := [⟨pid, pname, .X⟩] }
    | [p1] =>
        .ok { s with
          players := [p1, ⟨pid, pname, .O⟩]
          status := .playing
          currentTurn := some p1.id }
    | _ => .error .sessionFull
  else .error .sessionFull

/-- Modelled from the spec: `applyMove(playerId, position)` (§4.2) — valid
only in `playing`, only when the requester is `currentTurn`, only when the
position is in [0,8] and the target cell is empty; each violation signals its
distinct error.  On success the mover's symbol is written into the cell and
the Win Detector decides: `won` finishes the session with the mover as
winner, `draw` finishes it with no winner, otherwise the turn flips to the
other player (the player holding the other symbol). -/
def applyMove (s : GameSession) (playerId : String) (position : Int) :
    Except MoveError GameSession :=
  if s.status ≠ Status.playing then .error .gameNotActive
  else if s.currentTurn ≠ some playerId then .error .notYourTurn
  else if position < 0 ∨ 8 < position then .error .invalidPosition
  else
    let pos := position.toNat
    if (s.board.getD pos none).isSome then .error .cellOccupied
    else
      match s.players.find? (fun p => p.id == playerId) with
      | none => .error .notYourTurn
      | some mover =>
        let newBoard := s.board.set pos (some mover.symbol)
        match evaluate newBoard with
        | .won _ _ =>
            .ok { s with
              board := newBoard
              status := .finished
              winner := some playerId
              currentTurn := none }
        | .draw =>
            .ok { s with
              board := newBoard
              status := .finished
              winner := none
              currentTurn := none }
        | .ongoing =>
            .ok { s with
              board := newBoard
              currentTurn :=
                (s.players.find? (fun p => p.symbol ≠ mover.symbol)).map Player.id }

/-- The post-state of one accepted move: the requester was the current
player of a playing session, the chosen cell was empty and in range, the
mover's symbol was written there, and the session finished (won or draw) or
flipped the turn to the other player, as the Win Detector decided. -/
def MovePost (s : GameSession) (pid : String) (position : Int)
    (s' : GameSession) : Prop :=
  ∃ mover other : Player,
    mover ∈ s.players ∧ mover.id = pid ∧ other ∈ s.players ∧ other.id ≠ pid ∧
    s.status = .playing ∧ s.currentTurn = some pid ∧
    0 ≤ position ∧ position ≤ 8 ∧ s.board.getD position.toNat none = none ∧
    s'.board = s.board.set position.toNat (some mover.symbol) ∧
    s'.players = s.players ∧
    (∀ w l, evaluate s'.board = .won w l →
      s'.status = .finished ∧ s'.winner = some pid ∧ s'.currentTurn = none) ∧
    (evaluate s'.board = .draw →
      s'.status = .finished ∧ s'.winner = none ∧ s'.currentTurn = none) ∧
    (evaluate s'.board = .ongoing →
      s'.status = .playing ∧ s'.currentTurn = some other.id)

/-- On a fresh session the first joiner holds X and, once the second player
joins, the opening turn belongs to the X player. -/
def FreshTurnPost : Prop :=
  ∀ sid a na b2 nb t1 t2,
    joinSession (freshSession sid) a na = .ok t1 →
    joinSession t1 b2 nb = .ok t2 →
    t2.currentTurn = some a ∧ t2.status = .playing ∧
      ∃ p ∈ t2.players, p.id = a ∧ p.symbol = .X

/-- Modelled from the spec: an entry of the Matchmaking Queue (§3) — player
id, display name, and the arrival stamp used for FIFO ordering. -/
structure QueueEntry where
  playerId : String
  name : String
  enqueuedAt : Nat
deriving DecidableEq, Repr

/-- Modelled from the spec: the Matchmaking Queue — waiting entries in
arrival order, plus the clock used to stamp `enqueuedAt` (§4.4, §5). -/
structure QueueState where
  queue : List QueueEntry
  clock : Nat
deriving DecidableEq, Repr

/-- The initial empty queue. -/
def emptyQueue : QueueState := ⟨[], 0⟩

/-- Errors signalled by the Matchmaking Queue (§4.4). -/
inductive QueueError where
  | alreadyQueued
  | notQueued
deriving DecidableEq, Repr

/-- Modelled from the spec: `enqueue(playerId, name)` (§4.4) — rejects a
player already queued, otherwise appends an entry stamped with the current
clock. -/
def enqueue (st : QueueState) (pid pname : String) : Except QueueError QueueState :=
  if st.queue.any (fun e => e.playerId == pid) then .error .alreadyQueued
  else .ok ⟨st.queue ++ [⟨pid, pname, st.clock⟩], st.clock + 1⟩

/-- Modelled from the spec: `dequeue(playerId)` (§4.4) — removes the entry if
present, signals `NotQueued` otherwise. -/
def leaveQueue (st : QueueState) (pid : String) : Except QueueError QueueState :=
  if st.queue.any (fun e => e.playerId == pid) then
    .ok ⟨st.queue.filter (fun e => e.playerId != pid), st.clock⟩
  else .error .notQueued

/-- Modelled from the spec: strict FIFO pairing (§4.4) — when the depth
reaches 2 the two oldest entries (the head two, entries being kept in arrival
order) are popped and handed to the Session Registry. -/
def tryPair (st : QueueState) : Option (QueueEntry × QueueEntry × QueueState) :=
  match st.queue with
  | e1 :: e2 :: rest => some (e1, e2, ⟨rest, st.clock⟩)
  | _ => none

/-- The error taxonomy reported over the `error` event (§7). -/
inductive ErrKind where
  | move (e : MoveError)
  | queue (e : QueueError)
  | session (e : JoinError)
deriving DecidableEq, Repr

/-- A message the server core hands to the transport: an error addressed to
one connection, a snapshot broadcast to a session's participants, or a queue
depth report to one waiter (§6). -/
inductive Output where
  | errorTo (cid : String) (e : ErrKind)
  | broadcastUpdate (s : GameSession)
  | depthTo (cid : String) (n : Nat)
deriving DecidableEq, Repr

/-- Modelled from the spec: the move request handler — a successful move
broadcasts the new snapshot, a failed one addresses the error only to the
requester and keeps the session unchanged (§4.2, §7). -/
def handleMove (s : GameSession) (pid : String) (pos : Int) :
    GameSession × List Output :=
  match applyMove s pid pos with
  | .ok s' => (s', [.broadcastUpdate s'])
  | .error e => (s, [.errorTo pid (.move e)])

/-- Modelled from the spec: the leave-queue handler — a successful leave
reports the new depth to the remaining waiters, a failed one addresses
`NotQueued` only to the requester and keeps the queue unchanged (§4.4, §7). -/
def handleLeaveQueue (st : QueueState) (pid : String) : QueueState × List Output :=
  match leaveQueue st pid with
  | .ok st' => (st', st'.queue.map (fun e => .depthTo e.playerId st'.queue.length))
  | .error e => (st, [.errorTo pid (.queue e)])

/-- The session well-formedness invariant maintained by `joinSession` and
`applyMove`: 9 cells; in `waiting` no turn and at most one joined player
(holding X); in `playing` exactly two players, X then O, with the turn
pointing at one of them; in `finished` no turn. -/
def Inv (s : GameSession) : Prop :=
  s.board.length = 9 ∧
  (s.status = .waiting →
    s.currentTurn = none ∧
      (s.players = [] ∨ ∃ p, s.players = [p] ∧ p.symbol = Symbol.X)) ∧
  (s.status = .playing →
    ∃ p1 p2, s.players = [p1, p2] ∧ p1.symbol = .X ∧ p2.symbol = .O ∧
      (s.currentTurn = some p1.id ∨ s.currentTurn = some p2.id)) ∧
  (s.status = .finished → s.currentTurn = none)

/-- Reachable session states: a fresh registry-created session evolved by any
sequence of successful joins and moves (failed calls leave state untouched,
so they do not change the reachable set). -/
inductive Reachable : GameSession → Prop where
  | init (id : String) : Reachable (freshSession id)
  | joined {s s' : GameSession} (pid pname : String) :
      Reachable s → joinSession s pid pname = .ok s' → Reachable s'
  | moved {s s' : GameSession} (pid : String) (pos : Int) :
      Reachable s → applyMove s pid pos = .ok s' → Reachable s'

/-- The invariants C4 claims of a session state: the turn pointer is
non-null exactly in `playing` and always names a joined player; a finished
session rejects every join and every move; and the status only moves along
`waiting → playing → finished` — a successful join starts from `waiting` and
lands in `waiting` or `playing`, and a successful move starts from `playing`
and lands in `playing` or `finished`, so no step moves backwards, skips
`playing`, or leaves `finished`. -/
def SessionInvariantPost (s : GameSession) : Prop :=
  ((s.currentTurn ≠ none ↔ s.status = .playing) ∧
    (∀ tid, s.currentTurn = some tid → ∃ p ∈ s.players, p.id = tid)) ∧
  (s.status = .finished →
    (∀ pid pname, joinSession s pid pname = .error .sessionFull) ∧
    (∀ pid pos, applyMove s pid pos = .error .gameNotActive)) ∧
  (∀ pid pname s', joinSession s pid pname = .ok s' →
    s.status = .waiting ∧ (s'.status = .waiting ∨ s'.status = .playing)) ∧
  (∀ pid pos s', applyMove s pid pos = .ok s' →
    s.status = .playing ∧ (s'.status = .playing ∨ s'.status = .finished))

/-- Queue invariant: entries carry strictly increasing `enqueuedAt` stamps in
list order, all below the clock. -/
def QInv (st : QueueState) : Prop :=
  st.queue.Pairwise (fun a b => a.enqueuedAt < b.enqueuedAt) ∧
    ∀ e ∈ st.queue, e.enqueuedAt < st.clock

/-- Reachable queue states: the empty queue evolved by successful enqueues,
leaves and pairings. -/
inductive QReachable : QueueState → Prop where
  | init : QReachable emptyQueue
  | enq {st st' : QueueState} (pid pname : String) :
      QReachable st → enqueue st pid pname = .ok st' → QReachable st'
  | leave {st st' : QueueState} (pid : String) :
      QReachable st → leaveQueue st pid = .ok st' → QReachable st'
  | paired {st st' : QueueState} (e1 e2 : QueueEntry) :
      QReachable st → tryPair st = some (e1, e2, st') → QReachable st'

/-- A player as carried in the wire snapshot consumed by the clients (the
queue client's `symbol` field is optional, so it is an `Option` here). -/
structure ClientPlayer where
  id : String
  name : String
  symbol : Option String
deriving DecidableEq, Repr

/-- The client-side `GameState` snapshot, as typed in both TSX files:
`{ id, board, players, currentTurn, status, winner }` with a board of
`string | null` cells. -/
structure ClientGameState where
  id : String
  board : List (Option String)
  players : List ClientPlayer
  currentTurn : Option String
  status : Status
  winner : Option String
deriving DecidableEq, Repr

/-- `isMyTurn` of both clients: the socket exists and the snapshot's
`currentTurn` strictly equals the local socket id (a null `currentTurn`
never equals a string id). -/
def isMyTurn (g : ClientGameState) (myId : Option String) : Bool :=
  match myId with
  | none => false
  | some sid => g.currentTurn == some sid

/-- The `disabled` expression of the page.tsx board button:
`cell !== null || gameState.status !== 'playing' || !isMyTurn()`. -/
def cellDisabled (g : ClientGameState) (myId : Option String) (i : Nat) : Bool :=
  (g.board.getD i none).isSome || g.status != .playing || !(isMyTurn g myId)

/-- The `canMove` guard of the queue client's board button:
`status === 'playing' && isMyTurn() && cell === null`. -/
def canMove (g : ClientGameState) (myId : Option String) (i : Nat) : Bool :=
  g.status == .playing && isMyTurn g myId && (g.board.getD i none).isNone

/-- The events a client can emit over the socket. -/
inductive ClientEvent where
  | createGameEv (pname : String)
  | joinGameEv (gameId : String) (pname : Option String)
  | joinQueueEv (pname : String)
  | leaveQueueEv
  | makeMoveEv (gameId : Option String) (position : Nat)
deriving DecidableEq, Repr

/-- page.tsx `makeMove`: emits with `gameState?.id` (an optional id). -/
def pageMakeMove (gs : Option ClientGameState) (position : Nat) :
    List ClientEvent :=
  [.makeMoveEv (gs.map ClientGameState.id) position]

/-- The queue client's `makeMove`: returns without emitting when no snapshot
has been received (`if (!gameState) return`). -/
def queueMakeMove (gs : Option ClientGameState) (position : Nat) :
    List ClientEvent :=
  match gs with
  | none => []
  | some g => [.makeMoveEv (some g.id) position]

/-- Clicking cell `i` of the page.tsx board: a disabled button fires no
click handler, otherwise `makeMove(index)` runs with the rendered snapshot. -/
def pageCellClick (g : ClientGameState) (myId : Option String) (i : Nat) :
    List ClientEvent :=
  if cellDisabled g myId i then [] else pageMakeMove (some g) i

/-- Clicking cell `i` of the queue client's board: the button is disabled
when `!canMove`, and the click handler itself re-checks
`canMove && makeMove(index)`. -/
def queueCellClick (g : ClientGameState) (myId : Option String) (i : Nat) :
    List ClientEvent :=
  if canMove g myId i then queueMakeMove (some g) i else []

/-- Both boards are rendered by `gameState.board.map((cell, index) => ...)`:
a button exists exactly for each index of the last received board. -/
def renderedCells (g : ClientGameState) : List Nat :=
  List.range g.board.length

/-- A computable model of JS `String.prototype.trim()`: drop leading and
trailing whitespace characters. -/
def jsTrim (str : String) : String :=
  String.mk
    (((str.toList.dropWhile Char.isWhitespace).reverse.dropWhile
        Char.isWhitespace).reverse)

/-- The page.tsx component's local state used by the two setup actions. -/
structure PageModel where
  playerName : String
  gameId : String
  error : Option String
deriving DecidableEq, Repr

/-- page.tsx `createGame`: an empty trimmed name sets the local error and
returns before emitting; otherwise `createGame` is emitted with the name. -/
def createGame (m : PageModel) : PageModel × List ClientEvent :=
  if jsTrim m.playerName = "" then
    ({ m with error := some "Please enter your name" }, [])
  else (m, [.createGameEv m.playerName])

/-- page.tsx `joinGame`: an empty trimmed name or game id sets the local
error and returns before emitting; otherwise `joinGame` is emitted. -/
def joinGame (m : PageModel) : PageModel × List ClientEvent :=
  if jsTrim m.playerName = "" ∨ jsTrim m.gameId = "" then
    ({ m with error := some "Please enter your name and game ID" }, [])
  else (m, [.joinGameEv m.gameId (some m.playerName)])

/-- The queue client's local state used by its actions. -/
structure QueueModel where
  playerName : String
  error : Option String
  inQueue : Bool
deriving DecidableEq, Repr

/-- The queue client's `quickMatch`: an empty trimmed name sets the local
error and returns; otherwise `joinQueue` is emitted, the queue flag is set
and the error cleared. -/
def quickMatch (m : QueueModel) : QueueModel × List ClientEvent :=
  if jsTrim m.playerName = "" then
    ({ m with error := some "Please enter your name" }, [])
  else
    ({ m with inQueue := true, error := none }, [.joinQueueEv m.playerName])

/-- The queue client's `gameFound` handler: emit `joinGame` with the received
session id and clear the `inQueue` flag. -/
def onGameFound (m : QueueModel) (gid : String) : QueueModel × List ClientEvent :=
  ({ m with inQueue := false }, [.joinGameEv gid none])

/-- JS strict equality between the snapshot's `winner` (a string or null)
and `socketRef.current?.id` (a string or undefined): since null and
undefined are not strictly equal, it holds only on two equal strings. -/
def jsIdEq (a b : Option String) : Bool :=
  match a, b with
  | some x, some y => x == y
  | _, _ => false

/-- JS truthiness of the `winner` field: null and the empty string are
falsy, any other string is truthy. -/
def winnerTruthy (g : ClientGameState) : Bool :=
  match g.winner with
  | none => false
  | some w => w != ""

/-- page.tsx `didIWin`: finished and `winner === socketRef.current?.id`. -/
def didIWin (g : ClientGameState) (myId : Option String) : Bool :=
  g.status == .finished && jsIdEq g.winner myId

/-- page.tsx `didILose`: finished, `winner` truthy, and
`winner !== socketRef.current?.id`. -/
def didILose (g : ClientGameState) (myId : Option String) : Bool :=
  g.status == .finished && winnerTruthy g && !(jsIdEq g.winner myId)

/-- page.tsx `isGameDraw`: finished and `!gameState.winner`. -/
def isGameDraw (g : ClientGameState) : Bool :=
  g.status == .finished && !(winnerTruthy g)

/-- The three end-of-game overlays. -/
inductive Overlay where
  | win
  | lose
  | draw
deriving DecidableEq, Repr

/-- page.tsx `renderGameEndOverlay`: nothing unless finished, then the first
of win/lose/draw whose predicate holds, falling through to no overlay. -/
def renderGameEndOverlay (g : ClientGameState) (myId : Option String) :
    Option Overlay :=
  if g.status != .finished then none
  else if didIWin g myId then some .win
  else if didILose g myId then some .lose
  else if isGameDraw g then some .draw
  else none

/-- The queue client's `renderGameEndOverlay`: nothing unless finished, then
win if `winner === socketRef.current?.id`, else lose if `winner` is truthy,
else draw. -/
def renderGameEndOverlayQ (g : ClientGameState) (myId : Option String) :
    Option Overlay :=
  if g.status != .finished then none
  else if jsIdEq g.winner myId then some .win
  else if winnerTruthy g then some .lose
  else some .draw

/-- The three outcome predicates characterised, shown mutually exclusive and
exhaustive on finished snapshots with exactly one overlay rendered by either
client, and all false with no overlay otherwise. -/
def OutcomePost (g : ClientGameState) (myId : Option String) : Prop :=
  (didIWin g myId = true ↔
    g.status = .finished ∧ ∃ w, g.winner = some w ∧ myId = some w) ∧
  (didILose g myId = true ↔
    g.status = .finished ∧ g.winner ≠ none ∧ g.winner ≠ myId) ∧
  (isGameDraw g = true ↔ g.status = .finished ∧ g.winner = none) ∧
  (g.status = .finished →
    ((didIWin g myId = true ∧ didILose g myId = false ∧ isGameDraw g = false ∧
        renderGameEndOverlay g myId = some .win ∧
        renderGameEndOverlayQ g myId = some .win) ∨
     (didIWin g myId = false ∧ didILose g myId = true ∧ isGameDraw g = false ∧
        renderGameEndOverlay g myId = some .lose ∧
        renderGameEndOverlayQ g myId = some .lose) ∨
     (didIWin g myId = false ∧ didILose g myId = false ∧ isGameDraw g = true ∧
        renderGameEndOverlay g myId = some .draw ∧
        renderGameEndOverlayQ g myId = some .draw))) ∧
  (g.status ≠ .finished →
    didIWin g myId = false ∧ didILose g myId = false ∧ isGameDraw g = false ∧
      renderGameEndOverlay g myId = none ∧ renderGameEndOverlayQ g myId = none)

/-- A concrete empty 9-cell board used to instantiate the theorems. -/
def demoBoard : Board := List.replicate 9 none

/-- A concrete X player. -/
def pA : Player := ⟨"a", "Alice", .X⟩

/-- A concrete O player. -/
def pB : Player := ⟨"b", "Bob", .O⟩

/-- A concrete playing session: both players joined, empty board, X to move. -/
def sDemo : GameSession :=
  { id := "g"
    board := List.replicate 9 none
    players := [pA, pB]
    currentTurn := some "a"
    status := .playing
    winner := none }

/-- `sDemo` after X plays cell 0: X placed, turn flipped to O. -/
def sDemo1 : GameSession :=
  { id := "g"
    board := (List.replicate 9 none).set 0 (some .X)
    players := [pA, pB]
    currentTurn := some "b"
    status := .playing
    winner := none }

/-- A concrete finished session. -/
def sFin : GameSession :=
  { id := "h"
    board := List.replicate 9 none
    players := []
    currentTurn := none
    status := .finished
    winner := none }

/-- A concrete queue entry, first arrival. -/
def eA : QueueEntry := ⟨"a", "Alice", 0⟩

/-- A concrete queue entry, second arrival. -/
def eB : QueueEntry := ⟨"b", "Bob", 1⟩

/-- The queue after enqueueing `eA` then `eB` from the empty queue. -/
def qDemo : QueueState := ⟨[eA, eB], 2⟩

/-- A concrete snapshot of a playing game with the local player to move. -/
def gDemo : ClientGameState :=
  { id := "g"
    board := List.replicate 9 none
    players := []
    currentTurn := some "me"
    status := .playing
    winner := none }

/-- A concrete finished snapshot won by the local player. -/
def gFin : ClientGameState :=
  { id := "g"
    board := List.replicate 9 none
    players := []
    currentTurn := none
    status := .finished
    winner := some "me" }

/-- A concrete page model with valid inputs. -/
def mDemo : PageModel := ⟨"Alice", "g1", none⟩

/-- A concrete page model with an empty name and game id. -/
def mEmpty : PageModel := ⟨"", "", none⟩

/-- A concrete queue-client model with a valid name. -/
def qmDemo : QueueModel := ⟨"Alice", none, false⟩

/-- A triple wins for symbol `s` exactly when its three cells are all `s`. -/
theorem lineWinner_eq_some (b : Board) (i j k : Nat) (s : Symbol) :
    lineWinner b (i, j, k) = some s ↔
      cellAt b i = some s ∧ cellAt b j = some s ∧ cellAt b k = some s := by
  have hdef : lineWinner b (i, j, k) =
      (match cellAt b i with
       | none => none
       | some t => if cellAt b j = some t ∧ cellAt b k = some t then some t else none) := rfl
  rw [hdef]
  cases h : cellAt b i with
  | none => simp
  | some t =>
    constructor
    · intro hw
      simp only [] at hw
      by_cases hjk : cellAt b j = some t ∧ cellAt b k = some t
      · rw [if_pos hjk] at hw
        injection hw with hw
        subst hw
        exact ⟨rfl, hjk.1, hjk.2⟩
      · rw [if_neg hjk] at hw
        exact absurd hw (by simp)
    · rintro ⟨h1, h2, h3⟩
      injection h1 with h1
      subst h1
      show (if cellAt b j = some t ∧ cellAt b k = some t then some t else none) = some t
      rw [if_pos ⟨h2, h3⟩]

/-- If the scan reports a win, the triple is in the scanned list and wins. -/
theorem findWin_eq_some (b : Board) (ls : List (Nat × Nat × Nat))
    (s : Symbol) (l : Nat × Nat × Nat) (h : findWin b ls = some (s, l)) :
    l ∈ ls ∧ lineWinner b l = some s := by
  induction ls with
  | nil => simp [findWin] at h
  | cons hd tl ih =>
    unfold findWin at h
    cases hw : lineWinner b hd with
    | some t =>
      rw [hw] at h
      cases h
      exact ⟨List.mem_cons_self .., hw⟩
    | none =>
      rw [hw] at h
      obtain ⟨hmem, hwin⟩ := ih h
      exact ⟨List.mem_cons_of_mem _ hmem, hwin⟩

/-- The scan reports no win exactly when no scanned triple wins. -/
theorem findWin_eq_none (b : Board) (ls : List (Nat × Nat × Nat)) :
    findWin b ls = none ↔ ∀ l ∈ ls, lineWinner b l = none := by
  induction ls with
  | nil => simp [findWin]
  | cons hd tl ih =>
    unfold findWin
    cases hw : lineWinner b hd with
    | some t => simp [hw]
    | none => simpa [hw] using ih

/-- `lineWinner` restated on an unpatterned triple. -/
theorem lineWinner_eq_some_proj (b : Board) (l : Nat × Nat × Nat) (s : Symbol) :
    lineWinner b l = some s ↔
      cellAt b l.1 = some s ∧ cellAt b l.2.1 = some s ∧ cellAt b l.2.2 = some s := by
  obtain ⟨i, j, k⟩ := l
  exact lineWinner_eq_some b i j k s

/-- The scan over the 8 triples fails exactly when no fixed triple wins. -/
theorem findWin_winLines_eq_none (b : Board) :
    findWin b winLines = none ↔ ¬ ∃ l, WinningTriple b l := by
  rw [findWin_eq_none]
  constructor
  · rintro hall ⟨l, hmem, s, h1, h2, h3⟩
    have := hall l hmem
    rw [(lineWinner_eq_some_proj b l s).mpr ⟨h1, h2, h3⟩] at this
    cases this
  · intro hno l hmem
    cases hw : lineWinner b l with
    | none => rfl
    | some s =>
      exact absurd ⟨l, hmem, s, (lineWinner_eq_some_proj b l s).mp hw⟩ hno

/-- On a 9-cell board, `boardFull` means every position below 9 is filled. -/
theorem boardFull_iff (b : Board) (h : b.length = 9) :
    boardFull b = true ↔ ∀ i < 9, (cellAt b i).isSome := by
  unfold boardFull
  rw [List.all_eq_true]
  constructor
  · intro hall i hi
    have hm : b.getD i none ∈ b := by
      rw [List.getD_eq_getElem b none (by omega)]
      exact List.getElem_mem (by omega)
    exact hall _ hm
  · intro hall c hc
    obtain ⟨i, hi, rfl⟩ := List.mem_iff_getElem.mp hc
    have := hall i (by omega)
    rwa [cellAt, List.getD_eq_getElem b none hi] at this

/-- C1: for every 9-cell board, `evaluate` returns exactly one of ongoing,
won or draw; it returns `won` exactly when one of the 8 fixed triples holds
three equal non-empty cells, and the returned triple's three cells are equal
and non-empty; it returns `draw` exactly when all 9 cells are filled and no
triple won; and `ongoing` exactly otherwise. -/
theorem c1_win_detector (b : Board) (h : b.length = 9) : WinDetectorSpec b := by
  unfold WinDetectorSpec
  refine ⟨?_, ?_, ?_, ?_, ?_⟩
  · unfold evaluate
    cases hf : findWin b winLines with
    | some p =>
      obtain ⟨s, l⟩ := p
      exact Or.inr (Or.inl ⟨s, l, rfl⟩)
    | none =>
      by_cases hb : boardFull b
      · simp [hb]
      · simp [hb]
  · intro s l hev
    unfold evaluate at hev
    cases hf : findWin b winLines with
    | some p =>
      obtain ⟨s', l'⟩ := p
      rw [hf] at hev
      cases hev
      obtain ⟨hmem, hwin⟩ := findWin_eq_some b winLines s l hf
      exact ⟨hmem, (lineWinner_eq_some_proj b l s).mp hwin⟩
    | none =>
      rw [hf] at hev
      by_cases hb : boardFull b <;> simp [hb] at hev
  · constructor
    · rintro ⟨s, l, hev⟩
      unfold evaluate at hev
      cases hf : findWin b winLines with
      | some p =>
        obtain ⟨s', l'⟩ := p
        rw [hf] at hev
        cases hev
        obtain ⟨hmem, hwin⟩ := findWin_eq_some b winLines s l hf
        exact ⟨l, hmem, s, (lineWinner_eq_some_proj b l s).mp hwin⟩
      | none =>
        rw [hf] at hev
        by_cases hb : boardFull b <;> simp [hb] at hev
    · intro hwin
      cases hf : findWin b winLines with
      | some p =>
        obtain ⟨s, l⟩ := p
        refine ⟨s, l, ?_⟩
        unfold evaluate
        rw [hf]
      | none =>
        exact absurd hwin ((findWin_winLines_eq_none b).mp hf)
  · unfold evaluate
    cases hf : findWin b winLines with
    | some p =>
      obtain ⟨s, l⟩ := p
      constructor
      · intro hev
        cases hev
      · rintro ⟨-, hno⟩
        obtain ⟨hmem, hwin⟩ := findWin_eq_some b winLines s l hf
        exact absurd ⟨l, hmem, s, (lineWinner_eq_some_proj b l s).mp hwin⟩ hno
    | none =>
      have hno := (findWin_winLines_eq_none b).mp hf
      by_cases hb : boardFull b
      · simp only [hb, if_pos]
        exact ⟨fun _ => ⟨(boardFull_iff b h).mp hb, hno⟩, fun _ => trivial⟩
      · simp only [hb, if_neg, Bool.false_eq_true, reduceIte]
        constructor
        · intro hev
          cases hev
        · rintro ⟨hfull, -⟩
          exact absurd ((boardFull_iff b h).mpr hfull) hb
  · unfold evaluate
    cases hf : findWin b winLines with
    | some p =>
      obtain ⟨s, l⟩ := p
      constructor
      · intro hev
        cases hev
      · rintro ⟨-, hno⟩
        obtain ⟨hmem, hwin⟩ := findWin_eq_some b winLines s l hf
        exact absurd ⟨l, hmem, s, (lineWinner_eq_some_proj b l s).mp hwin⟩ hno
    | none =>
      have hno := (findWin_winLines_eq_none b).mp hf
      by_cases hb : boardFull b
      · simp only [hb, if_pos]
        constructor
        · intro hev
          cases hev
        · rintro ⟨⟨i, hi, hcell⟩, -⟩
          have := (boardFull_iff b h).mp hb i hi
          rw [hcell] at this
          cases this
      · simp only [hb, Bool.false_eq_true, reduceIte]
        refine ⟨fun _ => ⟨?_, hno⟩, fun _ => trivial⟩
        have : ¬ ∀ i < 9, (cellAt b i).isSome := fun hc => hb ((boardFull_iff b h).mpr hc)
        push_neg at this
        obtain ⟨i, hi, hc⟩ := this
        exact ⟨i, hi, Option.not_isSome_iff_eq_none.mp hc⟩

/-- C2: on a playing two-player session, every accepted move writes the
mover's symbol into the chosen cell; if the Win Detector reports won the
session finishes with the mover as winner and a cleared turn, if it reports
draw it finishes with no winner and a cleared turn, and otherwise it stays
playing with the turn flipped to the other player.  Moreover a fresh session
sets `currentTurn` to the X player's id once both players have joined. -/
theorem c2_apply_move (s : GameSession) (p1 p2 : Player) (pid : String)
    (position : Int) (s' : GameSession)
    (hp : s.players = [p1, p2]) (hx : p1.symbol = .X) (ho : p2.symbol = .O)
    (hne : p1.id ≠ p2.id)
    (hok : applyMove s pid position = .ok s') :
    MovePost s pid position s' ∧ FreshTurnPost := by
  unfold MovePost FreshTurnPost
  constructor
  · unfold applyMove at hok
    rw [hp] at hok
    dsimp only [] at hok
    split_ifs at hok with h1 h2 h3 h4
    · have hstatus := not_not.mp h1
      have hturn := not_not.mp h2
      have hposl : 0 ≤ position := by omega
      have hposr : position ≤ 8 := by omega
      have hcell : s.board.getD position.toNat none = none :=
        Option.not_isSome_iff_eq_none.mp h4
      split at hok
      · exact absurd hok (by simp)
      rename_i mover hfm
      have hmover : mover = p1 ∨ mover = p2 := by
        by_cases hid1 : p1.id = pid
        · have hf : List.find? (fun p => p.id == pid) [p1, p2] = some p1 := by
            simp [List.find?, hid1]
          rw [hf] at hfm
          injection hfm with hfm
          exact Or.inl hfm.symm
        · by_cases hid2 : p2.id = pid
          · have hb : (p1.id == pid) = false := beq_eq_false_iff_ne.mpr hid1
            have hf : List.find? (fun p => p.id == pid) [p1, p2] = some p2 := by
              simp [List.find?, hb, hid2]
            rw [hf] at hfm
            injection hfm with hfm
            exact Or.inr hfm.symm
          · have hb : (p1.id == pid) = false := beq_eq_false_iff_ne.mpr hid1
            have hb2 : (p2.id == pid) = false := beq_eq_false_iff_ne.mpr hid2
            have hf : List.find? (fun p => p.id == pid) [p1, p2] = none := by
              simp [List.find?, hb, hb2]
            rw [hf] at hfm
            cases hfm
      have hmid : mover.id = pid := by
        have := List.find?_some hfm
        exact beq_iff_eq.mp this
      rcases hmover with hm | hm
      · subst hm
        refine ⟨mover, p2, by rw [hp]; exact List.mem_cons_self ..,
          hmid, by rw [hp]; simp, by rw [← hmid]; exact fun he => hne he.symm,
          hstatus, hturn, hposl, hposr, hcell, ?_⟩
        split at hok
        · rename_i w l hev
          injection hok with hok
          subst hok
          refine ⟨rfl, hp.symm, fun w' l' _ => ⟨rfl, rfl, rfl⟩, ?_, ?_⟩
          · intro hd
            rw [hev] at hd
            cases hd
          · intro hd
            rw [hev] at hd
            cases hd
        · rename_i hev
          injection hok with hok
          subst hok
          refine ⟨rfl, hp.symm, ?_, fun _ => ⟨rfl, rfl, rfl⟩, ?_⟩
          · intro w' l' hd
            rw [hev] at hd
            cases hd
          · intro hd
            rw [hev] at hd
            cases hd
        · rename_i hev
          injection hok with hok
          subst hok
          refine ⟨rfl, hp.symm, ?_, ?_, fun _ => ⟨hstatus, ?_⟩⟩
          · intro w' l' hd
            rw [hev] at hd
            cases hd
          · intro hd
            rw [hev] at hd
            cases hd
          · simp [List.find?, hx, ho]
      · subst hm
        refine ⟨mover, p1, by rw [hp]; simp, hmid,
          by rw [hp]; exact List.mem_cons_self ..,
          by rw [← hmid]; exact hne, hstatus, hturn, hposl, hposr, hcell, ?_⟩
        split at hok
        · rename_i w l hev
          injection hok with hok
          subst hok
          refine ⟨rfl, hp.symm, fun w' l' _ => ⟨rfl, rfl, rfl⟩, ?_, ?_⟩
          · intro hd
            rw [hev] at hd
            cases hd
          · intro hd
            rw [hev] at hd
            cases hd
        · rename_i hev
          injection hok with hok
          subst hok
          refine ⟨rfl, hp.symm, ?_, fun _ => ⟨rfl, rfl, rfl⟩, ?_⟩
          · intro w' l' hd
            rw [hev] at hd
            cases hd
          · intro hd
            rw [hev] at hd
            cases hd
        · rename_i hev
          injection hok with hok
          subst hok
          refine ⟨rfl, hp.symm, ?_, ?_, fun _ => ⟨hstatus, ?_⟩⟩
          · intro w' l' hd
            rw [hev] at hd
            cases hd
          · intro hd
            rw [hev] at hd
            cases hd
          · simp [List.find?, hx, ho]
  · intro sid a na b2 nb t1 t2 h1 h2
    have e1 : joinSession (freshSession sid) a na =
        .ok { freshSession sid with players := [⟨a, na, .X⟩] } := rfl
    rw [e1] at h1
    injection h1 with h1
    subst h1
    have e2 : joinSession { freshSession sid with players := [⟨a, na, .X⟩] } b2 nb =
        .ok { freshSession sid with
          players := [⟨a, na, .X⟩, ⟨b2, nb, .O⟩]
          status := .playing
          currentTurn := some a } := rfl
    rw [e2] at h2
    injection h2 with h2
    subst h2
    exact ⟨rfl, rfl, ⟨a, na, .X⟩, List.mem_cons_self .., rfl, rfl⟩

/-- C3: each rejected request signals its distinct error to the requester
only and leaves the session (resp. queue) state unchanged: `GameNotActive`
when the session is not playing, `NotYourTurn` when the requester is not
`currentTurn`, `InvalidPosition` outside [0,8], `CellOccupied` on a filled
cell, and `NotQueued` for a leave by a non-queued player. -/
theorem c3_rejections (s : GameSession) (pid : String) (pos : Int)
    (st : QueueState) :
    (s.status ≠ .playing →
      applyMove s pid pos = .error .gameNotActive ∧
      handleMove s pid pos = (s, [.errorTo pid (.move .gameNotActive)])) ∧
    (s.status = .playing → s.currentTurn ≠ some pid →
      applyMove s pid pos = .error .notYourTurn ∧
      handleMove s pid pos = (s, [.errorTo pid (.move .notYourTurn)])) ∧
    (s.status = .playing → s.currentTurn = some pid → (pos < 0 ∨ 8 < pos) →
      applyMove s pid pos = .error .invalidPosition ∧
      handleMove s pid pos = (s, [.errorTo pid (.move .invalidPosition)])) ∧
    (s.status = .playing → s.currentTurn = some pid → ¬(pos < 0 ∨ 8 < pos) →
      (s.board.getD pos.toNat none).isSome = true →
      applyMove s pid pos = .error .cellOccupied ∧
      handleMove s pid pos = (s, [.errorTo pid (.move .cellOccupied)])) ∧
    ((∀ e ∈ st.queue, e.playerId ≠ pid) →
      leaveQueue st pid = .error .notQueued ∧
      handleLeaveQueue st pid = (st, [.errorTo pid (.queue .notQueued)])) := by
  refine ⟨?_, ?_, ?_, ?_, ?_⟩
  · intro hs
    have ha : applyMove s pid pos = .error .gameNotActive := by
      unfold applyMove
      rw [if_pos hs]
    exact ⟨ha, by simp [handleMove, ha]⟩
  · intro hs ht
    have ha : applyMove s pid pos = .error .notYourTurn := by
      unfold applyMove
      rw [if_neg (not_not_intro hs), if_pos ht]
    exact ⟨ha, by simp [handleMove, ha]⟩
  · intro hs ht hr
    have ha : applyMove s pid pos = .error .invalidPosition := by
      unfold applyMove
      rw [if_neg (not_not_intro hs), if_neg (not_not_intro ht), if_pos hr]
    exact ⟨ha, by simp [handleMove, ha]⟩
  · intro hs ht hr hc
    have ha : applyMove s pid pos = .error .cellOccupied := by
      unfold applyMove
      rw [if_neg (not_not_intro hs), if_neg (not_not_intro ht), if_neg hr]
      dsimp only []
      rw [if_pos hc]
    exact ⟨ha, by simp [handleMove, ha]⟩
  · intro hq
    have hany : st.queue.any (fun e => e.playerId == pid) = false := by
      rw [List.any_eq_false]
      intro e he
      simpa using hq e he
    have hl : leaveQueue st pid = .error .notQueued := by
      unfold leaveQueue
      rw [hany]
      simp
    exact ⟨hl, by simp [handleLeaveQueue, hl]⟩

/-- A fresh session satisfies the invariant. -/
theorem inv_fresh (id : String) : Inv (freshSession id) :=
  ⟨by simp [freshSession], fun _ => ⟨rfl, Or.inl rfl⟩,
    fun h => by simp [freshSession] at h, fun h => by simp [freshSession] at h⟩

/-- A successful join preserves the invariant. -/
theorem inv_join {s s' : GameSession} (pid pname : String)
    (hInv : Inv s) (hok : joinSession s pid pname = .ok s') : Inv s' := by
  obtain ⟨hlen, hwait, hplay, hfin⟩ := hInv
  unfold joinSession at hok
  split_ifs at hok with hw
  split at hok
  · injection hok with hok
    subst hok
    exact ⟨hlen, fun _ => ⟨(hwait hw).1, Or.inr ⟨⟨pid, pname, .X⟩, rfl, rfl⟩⟩,
      fun hc => absurd hc (by rw [hw]; exact fun h => nomatch h),
      fun hc => absurd hc (by rw [hw]; exact fun h => nomatch h)⟩
  · rename_i p1 hp1
    injection hok with hok
    subst hok
    have hx : p1.symbol = Symbol.X := by
      rcases (hwait hw).2 with hnil | ⟨p, hp, hpx⟩
      · rw [hp1] at hnil
        cases hnil
      · rw [hp1] at hp
        injection hp with hp
        rw [hp]
        exact hpx
    refine ⟨hlen, fun hc => by simp at hc,
      fun _ => ⟨p1, ⟨pid, pname, .O⟩, rfl, hx, rfl, Or.inl rfl⟩,
      fun hc => by simp at hc⟩
  · cases hok

/-- A successful move preserves the invariant. -/
theorem inv_move {s s' : GameSession} (pid : String) (pos : Int)
    (hInv : Inv s) (hok : applyMove s pid pos = .ok s') : Inv s' := by
  obtain ⟨hlen, hwait, hplay, hfin⟩ := hInv
  unfold applyMove at hok
  dsimp only [] at hok
  split_ifs at hok with h1 h2 h3 h4
  have hstatus := not_not.mp h1
  obtain ⟨p1, p2, hp, hx, ho, hturn⟩ := hplay hstatus
  split at hok
  · cases hok
  rename_i mover hfm
  have hmem : mover ∈ s.players := List.mem_of_find?_eq_some hfm
  have hmover : mover = p1 ∨ mover = p2 := by
    rw [hp] at hmem
    simpa using hmem
  split at hok
  · injection hok with hok
    subst hok
    exact ⟨by rw [List.length_set]; exact hlen,
      fun hc => by simp at hc, fun hc => by simp at hc, fun _ => rfl⟩
  · injection hok with hok
    subst hok
    exact ⟨by rw [List.length_set]; exact hlen,
      fun hc => by simp at hc, fun hc => by simp at hc, fun _ => rfl⟩
  · injection hok with hok
    subst hok
    refine ⟨by rw [List.length_set]; exact hlen,
      fun hc => absurd hc (by rw [hstatus]; exact fun h => nomatch h),
      fun _ => ⟨p1, p2, hp, hx, ho, ?_⟩,
      fun hc => absurd hc (by rw [hstatus]; exact fun h => nomatch h)⟩
    rcases hmover with hm | hm
    · subst hm
      right
      show Option.map Player.id
        (List.find? (fun p => decide (p.symbol ≠ mover.symbol)) s.players) =
          some p2.id
      rw [hp]
      simp [List.find?, hx, ho]
    · subst hm
      left
      show Option.map Player.id
        (List.find? (fun p => decide (p.symbol ≠ mover.symbol)) s.players) =
          some p1.id
      rw [hp]
      simp [List.find?, hx, ho]

/-- A successful join happens only in `waiting` and lands in `waiting` (one
player bound) or `playing` (both bound): the status never moves backwards or
skips ahead on a join step. -/
theorem joinSession_status_step {s s' : GameSession} {pid pname : String}
    (hok : joinSession s pid pname = .ok s') :
    s.status = .waiting ∧ (s'.status = .waiting ∨ s'.status = .playing) := by
  unfold joinSession at hok
  split_ifs at hok with hw
  split at hok
  · injection hok with hok
    subst hok
    exact ⟨hw, Or.inl hw⟩
  · injection hok with hok
    subst hok
    exact ⟨hw, Or.inr rfl⟩
  · cases hok

/-- A successful move happens only in `playing` and lands in `playing`
(ongoing) or `finished` (won or draw): the status never moves backwards on a
move step. -/
theorem applyMove_status_step {s s' : GameSession} {pid : String} {pos : Int}
    (hok : applyMove s pid pos = .ok s') :
    s.status = .playing ∧ (s'.status = .playing ∨ s'.status = .finished) := by
  unfold applyMove at hok
  dsimp only [] at hok
  split_ifs at hok with h1 h2 h3 h4
  have hstatus := not_not.mp h1
  split at hok
  · cases hok
  rename_i mover hfm
  split at hok
  · injection hok with hok
    subst hok
    exact ⟨hstatus, Or.inr rfl⟩
  · injection hok with hok
    subst hok
    exact ⟨hstatus, Or.inr rfl⟩
  · injection hok with hok
    subst hok
    exact ⟨hstatus, Or.inl hstatus⟩

/-- Every reachable session satisfies the invariant. -/
theorem reachable_inv {s : GameSession} (hr : Reachable s) : Inv s := by
  induction hr with
  | init id => exact inv_fresh id
  | joined pid pname _ hok ih => exact inv_join pid pname ih hok
  | moved pid pos _ hok ih => exact inv_move pid pos ih hok

/-- C4: on every reachable session, `currentTurn` is non-null exactly when
the status is `playing` and always names one of the joined players; and the
status only moves along `waiting → playing → finished`: a successful join
goes from `waiting` to `waiting` or `playing`, a successful move goes from
`playing` to `playing` or `finished`, and a finished session rejects both
operations, so `finished` is terminal. -/
theorem c4_invariants (s : GameSession) (hr : Reachable s) :
    SessionInvariantPost s := by
  unfold SessionInvariantPost
  obtain ⟨hlen, hwait, hplay, hfin⟩ := reachable_inv hr
  refine ⟨⟨?_, ?_⟩, ?_,
    fun pid pname s' hok => joinSession_status_step hok,
    fun pid pos s' hok => applyMove_status_step hok⟩
  · cases hst : s.status with
    | waiting => rw [(hwait hst).1]; simp
    | playing =>
      rcases hplay hst with ⟨p1, p2, hp, hx, ho, h | h⟩ <;> simp [h]
    | finished => rw [hfin hst]; simp
  · intro tid htid
    cases hst : s.status with
    | waiting =>
      rw [(hwait hst).1] at htid
      cases htid
    | playing =>
      rcases hplay hst with ⟨p1, p2, hp, hx, ho, h | h⟩
      · rw [h] at htid
        injection htid with htid
        exact ⟨p1, by rw [hp]; exact List.mem_cons_self .., htid⟩
      · rw [h] at htid
        injection htid with htid
        exact ⟨p2, by rw [hp]; simp, htid⟩
    | finished =>
      rw [hfin hst] at htid
      cases htid
  · intro hst
    constructor
    · intro pid pname
      unfold joinSession
      rw [if_neg (by rw [hst]; exact fun h => nomatch h)]
    · intro pid pos
      unfold applyMove
      rw [if_pos (by rw [hst]; exact fun h => nomatch h)]

/-- Every reachable queue state satisfies the queue invariant. -/
theorem qreachable_inv {st : QueueState} (hr : QReachable st) : QInv st := by
  induction hr with
  | init => exact ⟨List.Pairwise.nil, by simp [emptyQueue]⟩
  | enq pid pname _ hok ih =>
    obtain ⟨hpw, hclk⟩ := ih
    rename_i st st' _
    unfold enqueue at hok
    split_ifs at hok
    injection hok with hok
    subst hok
    constructor
    · rw [List.pairwise_append]
      exact ⟨hpw, List.pairwise_singleton .., fun a ha b hb => by
        rw [List.mem_singleton.mp hb]
        exact hclk a ha⟩
    · intro e he
      rcases List.mem_append.mp he with he | he
      · exact Nat.lt_succ_of_lt (hclk e he)
      · rw [List.mem_singleton.mp he]
        exact Nat.lt_succ_self _
  | leave pid _ hok ih =>
    obtain ⟨hpw, hclk⟩ := ih
    rename_i st st' _
    unfold leaveQueue at hok
    split_ifs at hok
    injection hok with hok
    subst hok
    exact ⟨hpw.filter _, fun e he => hclk e (List.mem_filter.mp he).1⟩
  | paired e1 e2 _ hok ih =>
    obtain ⟨hpw, hclk⟩ := ih
    rename_i st st' _
    unfold tryPair at hok
    split at hok
    · rename_i f1 f2 rest hq
      injection hok with hok
      rw [Prod.ext_iff] at hok
      obtain ⟨-, hok⟩ := hok
      rw [Prod.ext_iff] at hok
      obtain ⟨-, hok⟩ := hok
      subst hok
      rw [hq] at hpw hclk
      exact ⟨(List.pairwise_cons.mp ((List.pairwise_cons.mp hpw).2)).2,
        fun e he => hclk e (by simp [he])⟩
    · cases hok

/-- C5: on every reachable queue whose depth has reached 2, pairing pops
exactly the head two entries, and those hold strictly the two smallest
`enqueuedAt` stamps present: the first is older than the second and both are
older than every entry left waiting, so no entry is ever selected while an
older one remains. -/
theorem c5_fifo_pairing (st : QueueState) (hr : QReachable st)
    (e1 e2 : QueueEntry) (rest : List QueueEntry)
    (hq : st.queue = e1 :: e2 :: rest) :
    tryPair st = some (e1, e2, ⟨rest, st.clock⟩) ∧
    e1.enqueuedAt < e2.enqueuedAt ∧
    ∀ e ∈ rest, e1.enqueuedAt < e.enqueuedAt ∧ e2.enqueuedAt < e.enqueuedAt := by
  obtain ⟨hpw, hclk⟩ := qreachable_inv hr
  rw [hq] at hpw
  have h1 := List.pairwise_cons.mp hpw
  have h2 := List.pairwise_cons.mp h1.2
  refine ⟨by simp [tryPair, hq], h1.1 e2 (List.mem_cons_self ..), ?_⟩
  intro e he
  exact ⟨h1.1 e (List.mem_cons_of_mem _ he), h2.1 e he⟩

/-- C6: a board button is enabled exactly when its cell is null, the status
is `playing`, and `currentTurn` equals the local connection id — in both
client variants — and consequently a click emits a move only under those
conditions. -/
theorem c6_button_guard (g : ClientGameState) (myId : Option String) (i : Nat) :
    (cellDisabled g myId i = false ↔
      (g.board.getD i none = none ∧ g.status = .playing ∧
        ∃ sid, myId = some sid ∧ g.currentTurn = some sid)) ∧
    (canMove g myId i = true ↔
      (g.board.getD i none = none ∧ g.status = .playing ∧
        ∃ sid, myId = some sid ∧ g.currentTurn = some sid)) ∧
    (∀ ev ∈ pageCellClick g myId i,
      g.board.getD i none = none ∧ g.status = .playing ∧
        (∃ sid, myId = some sid ∧ g.currentTurn = some sid) ∧
        ev = .makeMoveEv (some g.id) i) ∧
    (∀ ev ∈ queueCellClick g myId i,
      g.board.getD i none = none ∧ g.status = .playing ∧
        (∃ sid, myId = some sid ∧ g.currentTurn = some sid) ∧
        ev = .makeMoveEv (some g.id) i) := by
  have hiff : cellDisabled g myId i = false ↔
      (g.board.getD i none = none ∧ g.status = .playing ∧
        ∃ sid, myId = some sid ∧ g.currentTurn = some sid) := by
    unfold cellDisabled isMyTurn
    cases myId with
    | none => simp
    | some sid =>
      cases hc : g.board.getD i none <;>
        cases hst : g.status <;> simp [hc, hst]
  have hiff2 : canMove g myId i = true ↔
      (g.board.getD i none = none ∧ g.status = .playing ∧
        ∃ sid, myId = some sid ∧ g.currentTurn = some sid) := by
    unfold canMove isMyTurn
    cases myId with
    | none => simp
    | some sid =>
      cases hc : g.board.getD i none <;>
        cases hst : g.status <;> simp [hc, hst]
  refine ⟨hiff, hiff2, ?_, ?_⟩
  · intro ev hev
    unfold pageCellClick at hev
    split at hev
    · cases hev
    · rename_i hdis
      have := hiff.mp (Bool.not_eq_true _ ▸ eq_false_of_ne_true hdis)
      unfold pageMakeMove at hev
      rcases List.mem_singleton.mp hev with rfl
      exact ⟨this.1, this.2.1, this.2.2, rfl⟩
  · intro ev hev
    unfold queueCellClick at hev
    split at hev
    · rename_i hcan
      have := hiff2.mp hcan
      unfold queueMakeMove at hev
      rcases List.mem_singleton.mp hev with rfl
      exact ⟨this.1, this.2.1, this.2.2, rfl⟩
    · cases hev

/-- C7: each setup action validates its inputs — an empty trimmed name (or,
for joinGame, an empty trimmed game id) sets the corresponding error message
and emits nothing, while non-empty inputs emit the corresponding event. -/
theorem c7_name_validation (m : PageModel) (q : QueueModel) :
    (jsTrim m.playerName = "" →
      createGame m = ({ m with error := some "Please enter your name" }, [])) ∧
    (jsTrim m.playerName ≠ "" →
      createGame m = (m, [.createGameEv m.playerName])) ∧
    (jsTrim m.playerName = "" ∨ jsTrim m.gameId = "" →
      joinGame m =
        ({ m with error := some "Please enter your name and game ID" }, [])) ∧
    (jsTrim m.playerName ≠ "" → jsTrim m.gameId ≠ "" →
      joinGame m = (m, [.joinGameEv m.gameId (some m.playerName)])) ∧
    (jsTrim q.playerName = "" →
      quickMatch q = ({ q with error := some "Please enter your name" }, [])) ∧
    (jsTrim q.playerName ≠ "" →
      quickMatch q =
        ({ q with inQueue := true, error := none }, [.joinQueueEv q.playerName])) := by
  refine ⟨?_, ?_, ?_, ?_, ?_, ?_⟩
  · intro h
    unfold createGame
    rw [if_pos h]
  · intro h
    unfold createGame
    rw [if_neg h]
  · intro h
    unfold joinGame
    rw [if_pos h]
  · intro h1 h2
    unfold joinGame
    rw [if_neg (by push_neg; exact ⟨h1, h2⟩)]
  · intro h
    unfold quickMatch
    rw [if_pos h]
  · intro h
    unfold quickMatch
    rw [if_neg h]

/-- C8: a `gameFound` notification makes the queue client emit exactly one
`joinGame` whose game id is the received session id and clear its queue flag,
so two matched clients receiving the same id emit joins for the same
session. -/
theorem c8_game_found (m : QueueModel) (gid : String) :
    (onGameFound m gid).2 = [.joinGameEv gid none] ∧
    (onGameFound m gid).1.inQueue = false ∧
    (∀ m2 : QueueModel, (onGameFound m2 gid).2 = (onGameFound m gid).2) :=
  ⟨rfl, rfl, fun _ => rfl⟩

/-- C10: every move event reachable from a rendered board button carries the
current snapshot's id and a position that indexes the received board (so at
most 8 on a 9-cell board), and the queue client emits nothing at all when no
snapshot has been received. -/
theorem c10_move_payload (g : ClientGameState) (myId : Option String)
    (i pos : Nat) (hi : i ∈ renderedCells g) :
    (∀ ev ∈ pageCellClick g myId i,
      ev = .makeMoveEv (some g.id) i ∧ i < g.board.length ∧
        (g.board.length = 9 → i ≤ 8)) ∧
    (∀ ev ∈ queueCellClick g myId i,
      ev = .makeMoveEv (some g.id) i ∧ i < g.board.length ∧
        (g.board.length = 9 → i ≤ 8)) ∧
    queueMakeMove none pos = [] := by
  have hlen : i < g.board.length := List.mem_range.mp hi
  refine ⟨?_, ?_, rfl⟩
  · intro ev hev
    unfold pageCellClick pageMakeMove at hev
    split at hev
    · cases hev
    · rcases List.mem_singleton.mp hev with rfl
      exact ⟨rfl, hlen, fun h9 => by omega⟩
  · intro ev hev
    unfold queueCellClick queueMakeMove at hev
    split at hev
    · rcases List.mem_singleton.mp hev with rfl
      exact ⟨rfl, hlen, fun h9 => by omega⟩
    · cases hev

/-- C9: for snapshots whose winner field is a connection id (hence not the
empty string), the win/lose/draw predicates are as the claim describes them,
mutually exclusive and exhaustive on finished snapshots — so exactly one
overlay is rendered — and all false, with no overlay, on snapshots that are
not finished. -/
theorem c9_outcome (g : ClientGameState) (myId : Option String)
    (hw : g.winner ≠ some "") : OutcomePost g myId := by
  unfold OutcomePost
  cases hst : g.status with
  | waiting =>
    simp [didIWin, didILose, isGameDraw, renderGameEndOverlay,
      renderGameEndOverlayQ, winnerTruthy, jsIdEq, hst]
  | playing =>
    simp [didIWin, didILose, isGameDraw, renderGameEndOverlay,
      renderGameEndOverlayQ, winnerTruthy, jsIdEq, hst]
  | finished =>
    cases hwin : g.winner with
    | none =>
      cases myId with
      | none =>
        simp [didIWin, didILose, isGameDraw, renderGameEndOverlay,
          renderGameEndOverlayQ, winnerTruthy, jsIdEq, hst, hwin]
      | some sid =>
        simp [didIWin, didILose, isGameDraw, renderGameEndOverlay,
          renderGameEndOverlayQ, winnerTruthy, jsIdEq, hst, hwin]
    | some w =>
      have hne : w ≠ "" := fun hc => hw (hc ▸ hwin)
      cases myId with
      | none =>
        simp [didIWin, didILose, isGameDraw, renderGameEndOverlay,
          renderGameEndOverlayQ, winnerTruthy, jsIdEq, hst, hwin, hne]
      | some sid =>
        by_cases heq : w = sid
        · subst heq
          simp [didIWin, didILose, isGameDraw, renderGameEndOverlay,
            renderGameEndOverlayQ, winnerTruthy, jsIdEq, hst, hwin, hne]
        · simp [didIWin, didILose, isGameDraw, renderGameEndOverlay,
            renderGameEndOverlayQ, winnerTruthy, jsIdEq, hst, hwin, hne,
            heq, Ne.symm heq]

/-- Witness for C1 at a concrete board: the empty board is 9 cells long and
satisfies the Win Detector contract. -/
theorem c1_win_detector_witness :
    demoBoard.length = 9 ∧ WinDetectorSpec demoBoard :=
  ⟨rfl, c1_win_detector demoBoard rfl⟩

/-- Witness for C2 at a concrete accepted move: X playing cell 0 on `sDemo`
yields `sDemo1`. -/
theorem c2_apply_move_witness : MovePost sDemo "a" 0 sDemo1 ∧ FreshTurnPost :=
  c2_apply_move sDemo pA pB "a" 0 sDemo1 rfl rfl rfl (by decide) rfl

/-- Witness for C3 at concrete rejections: a move on a finished session and a
leave on the empty queue. -/
theorem c3_rejections_witness :
    applyMove sFin "a" 0 = .error .gameNotActive ∧
    handleMove sFin "a" 0 = (sFin, [.errorTo "a" (.move .gameNotActive)]) ∧
    leaveQueue emptyQueue "z" = .error .notQueued ∧
    handleLeaveQueue emptyQueue "z" =
      (emptyQueue, [.errorTo "z" (.queue .notQueued)]) := by
  have h := c3_rejections sFin "a" 0 emptyQueue
  have hz := c3_rejections sFin "z" 0 emptyQueue
  have h1 := h.1 (by decide)
  have h5 := hz.2.2.2.2 (by simp [emptyQueue])
  exact ⟨h1.1, h1.2, h5.1, h5.2⟩

/-- Witness for C4 at a concrete reachable session: the fresh session. -/
theorem c4_invariants_witness : SessionInvariantPost (freshSession "g") :=
  c4_invariants (freshSession "g") (Reachable.init "g")

/-- Witness for C5 at a concrete reachable two-entry queue. -/
theorem c5_fifo_pairing_witness :
    tryPair qDemo = some (eA, eB, ⟨[], qDemo.clock⟩) ∧
    eA.enqueuedAt < eB.enqueuedAt ∧
    ∀ e ∈ ([] : List QueueEntry),
      eA.enqueuedAt < e.enqueuedAt ∧ eB.enqueuedAt < e.enqueuedAt :=
  c5_fifo_pairing qDemo
    (QReachable.enq "b" "Bob" (QReachable.enq "a" "Alice" QReachable.init rfl) rfl)
    eA eB [] rfl

/-- Witness for C6 at a concrete snapshot: on `gDemo` with the local id to
move, cell 0 is enabled exactly under the claimed conditions. -/
theorem c6_button_guard_witness :
    cellDisabled gDemo (some "me") 0 = false ↔
      (gDemo.board.getD 0 none = none ∧ gDemo.status = .playing ∧
        ∃ sid, (some "me" : Option String) = some sid ∧
          gDemo.currentTurn = some sid) :=
  (c6_button_guard gDemo (some "me") 0).1

/-- Witness for C7 at concrete inputs: the empty name is rejected with the
error message, valid inputs emit the corresponding events. -/
theorem c7_name_validation_witness :
    createGame mEmpty = ({ mEmpty with error := some "Please enter your name" }, []) ∧
    createGame mDemo = (mDemo, [.createGameEv mDemo.playerName]) ∧
    joinGame mDemo = (mDemo, [.joinGameEv mDemo.gameId (some mDemo.playerName)]) ∧
    quickMatch qmDemo =
      ({ qmDemo with inQueue := true, error := none }, [.joinQueueEv qmDemo.playerName]) := by
  have h := c7_name_validation mEmpty qmDemo
  have h2 := c7_name_validation mDemo qmDemo
  exact ⟨h.1 (by decide), h2.2.1 (by decide),
    h2.2.2.2.1 (by decide) (by decide), h2.2.2.2.2.2 (by decide)⟩

/-- Witness for C9 at a concrete finished snapshot won by the local player. -/
theorem c9_outcome_witness : OutcomePost gFin (some "me") :=
  c9_outcome gFin (some "me") (by decide)

/-- Witness for C10 at a concrete rendered cell of `gDemo`. -/
theorem c10_move_payload_witness :
    (∀ ev ∈ pageCellClick gDemo (some "me") 0,
      ev = .makeMoveEv (some gDemo.id) 0 ∧ 0 < gDemo.board.length ∧
        (gDemo.board.length = 9 → 0 ≤ 8)) ∧
    (∀ ev ∈ queueCellClick gDemo (some "me") 0,
      ev = .makeMoveEv (some gDemo.id) 0 ∧ 0 < gDemo.board.length ∧
        (gDemo.board.length = 9 → 0 ≤ 8)) ∧
    queueMakeMove none 0 = [] :=
  c10_move_payload gDemo (some "me") 0 0 (by decide)

end TTT

